import Mathlib

/-!
Verification of the native logcat capture engine.

The repository contains the capture engine in C++ in two revisions:

* `src/core/src/main/jni/LogEngine.cpp` (referred to below as the `Core`
  variant), matching `src/core/src/main/jni/LogEngine.hpp`, which declares
  the accumulator-flush flag `m_should_flush_accumulator`;
* `src/unnamed/part_000` (and the close revision `src/unnamed/part_001`),
  referred to below as the `Part000` variant, which instead carries the
  accumulator safety valve and the would-block handling in `safeWrite`.

Where the two variants agree the shared logic is embedded once; where they
differ both are embedded, in the namespaces `Core` and `Part000`.

Bytes are modelled as natural numbers (the values of the C `char`s read
from the pipe), byte buffers as `List Nat`, and the line-feed terminator
is the byte 10.
-/

namespace LogcatEngine

/-- Read buffer size: `READ_BUFFER_SIZE = 128 * 1024` in both variants. -/
def READ_BUFFER_SIZE : Nat := 128 * 1024

/-- The line-feed byte, the sole frame delimiter of the outbound protocol. -/
def NL : Nat := 10

/-- Embedding of the line-splitting inner loop shared by both variants
(`LogEngine.cpp` lines 208-233, `part_000` lines 260-291): scan the bytes
after the current position for line feeds; for each one found, the bytes
since the previous terminator form a candidate line (without its
terminator), which is handed to the sink including its terminator when the
match predicate `m` accepts it.  `cur` are the bytes of the current
(not yet terminated) line already scanned; the second component of the
result is the unconsumed trailing partial line left in the accumulator. -/
def scanGo (m : List Nat → Bool) : List Nat → List Nat → List (List Nat) × List Nat
  | cur, [] => ([], cur)
  | cur, b :: bs =>
    if b = NL then
      let r := scanGo m [] bs
      ((if m cur then [cur ++ [NL]] else []) ++ r.1, r.2)
    else
      scanGo m (cur ++ [b]) bs

/-- One full scan of the accumulator contents, starting with an empty
current line, exactly as both variants do after appending a fresh read. -/
def scanLines (m : List Nat → Bool) (buf : List Nat) : List (List Nat) × List Nat :=
  scanGo m [] buf

/-- Specification-side decomposition of a byte stream, written from the
claim wording: the list of complete lines (without their terminators) in
order, paired with the trailing bytes after the last line feed.  Note the
recursion structure is on the head byte, independent of the scanning loop
of the implementation. -/
def specSplit : List Nat → List (List Nat) × List Nat
  | [] => ([], [])
  | b :: bs =>
    let r := specSplit bs
    if b = NL then
      ([] :: r.1, r.2)
    else
      match r.1 with
      | l :: ls => ((b :: l) :: ls, r.2)
      | [] => ([], b :: r.2)

/-- Specification-side delivered units: the complete lines of the stream
accepted by the match predicate, each with its single terminating line
feed re-attached. -/
def specDelivered (m : List Nat → Bool) (s : List Nat) : List (List Nat) :=
  (specSplit s).1.filterMap (fun l => if m l then some (l ++ [NL]) else none)

/-- Specification-side retained remainder: the bytes after the last line
feed of the stream. -/
def specTrailing (s : List Nat) : List Nat :=
  (specSplit s).2

/-- ASCII case folding used by the case-insensitive matcher
(`std::regex_constants::icase` with the default locale folds exactly the
ASCII letters). -/
def toLowerByte (c : Nat) : Nat :=
  if 65 ≤ c ∧ c ≤ 90 then c + 32 else c

/-- The matcher-special characters escaped by `updateLiteral`, in source
order: the raw string `R"(\^$.*+?()[]{}|)"` of `LogEngine.cpp` line 267 /
`part_000` line 347, as byte values. -/
def specials : List Nat :=
  [92, 94, 36, 46, 42, 43, 63, 40, 41, 91, 93, 123, 125, 124]

/-- Escaping loop of `updateLiteral` (`LogEngine.cpp` lines 265-275,
`part_000` lines 346-355): every occurrence of a matcher-special character
is prefixed with a backslash (byte 92); all other bytes pass through. -/
def escapeLiteral : List Nat → List Nat
  | [] => []
  | c :: cs => (if c ∈ specials then [92, c] else [c]) ++ escapeLiteral cs

/-- Atoms of the modelled matcher fragment: a literal byte, or the
ECMAScript dot. -/
inductive RAtom where
  | lit (c : Nat)
  | dot
deriving DecidableEq

/-- Model of `std::regex` compilation (ECMAScript, icase, optimize)
restricted to the pattern fragment this development evaluates: sequences
of ordinary characters, backslash-escaped special characters, and the dot
metacharacter.  A pattern using any other unescaped metacharacter lies
outside the modelled fragment and is mapped to compile failure, as is a
trailing backslash (which `std::regex` rejects with `error_escape`) and a
lone `(` or `[` (rejected with `error_paren`/`error_brack`). -/
def compileAtoms : List Nat → Option (List RAtom)
  | [] => some []
  | c :: cs =>
    if c = 92 then
      match cs with
      | [] => none
      | d :: ds =>
        if d ∈ specials then (compileAtoms ds).map (fun r => RAtom.lit d :: r) else none
    else if c = 46 then (compileAtoms cs).map (fun r => RAtom.dot :: r)
    else if c ∈ specials then none
    else (compileAtoms cs).map (fun r => RAtom.lit c :: r)

/-- Matching of one atom against one byte: literals compare under ASCII
case folding (icase); the dot matches anything except the line
terminators LF and CR. -/
def matchAtom : RAtom → Nat → Bool
  | RAtom.lit c, b => toLowerByte c == toLowerByte b
  | RAtom.dot, b => !(b == 10) && !(b == 13)

/-- Matching of an atom sequence against a prefix of the subject. -/
def matchHere : List RAtom → List Nat → Bool
  | [], _ => true
  | _ :: _, [] => false
  | a :: p, b :: s => matchAtom a b && matchHere p s

/-- Search semantics of `std::regex_search`: the atom sequence may match
starting at any position of the subject. -/
def searchAtoms (p : List RAtom) : List Nat → Bool
  | [] => matchHere p []
  | b :: s => matchHere p (b :: s) || searchAtoms p s

/-- Pattern Store state: the compiled matcher slot `m_regex`, the
readiness flag `m_regex_ready`, and (Core variant only) the
accumulator-flush request `m_should_flush_accumulator`. -/
structure FilterState where
  ready : Bool
  regex : List RAtom
  flush : Bool
deriving DecidableEq

/-- Initial filter state: `m_regex_ready` and the flush flag start
false. -/
def initialFilterState : FilterState :=
  { ready := false, regex := [], flush := false }

/-- Per-line match query of the stream processor (`LogEngine.cpp` lines
218-225, `part_000` lines 270-276): when the store is not ready the line
is treated as matched; otherwise the compiled matcher is searched against
the line (without its terminator). -/
def evalLine (st : FilterState) (line : List Nat) : Bool :=
  if st.ready then searchAtoms st.regex line else true

namespace Core

/-- Core-variant `LogEngine::setPattern` (`LogEngine.cpp` lines 246-261),
run entirely under the spinlock: an empty pattern stores ready=false; a
pattern that compiles is stored and ready is set; the flush request is
stored afterwards on both of those paths.  A compile failure throws before
the flush store, and the catch handler only stores ready=false, leaving
the matcher slot and the flush flag untouched. -/
def setPattern (st : FilterState) (p : List Nat) : FilterState :=
  if p = [] then { st with ready := false, flush := true }
  else
    match compileAtoms p with
    | some r => { st with regex := r, ready := true, flush := true }
    | none => { st with ready := false }

/-- Core-variant `LogEngine::updateRegex`: delegates to `setPattern`. -/
def updateRegex (st : FilterState) (r : List Nat) : FilterState :=
  setPattern st r

/-- Core-variant `LogEngine::updateLiteral`: escapes and delegates. -/
def updateLiteral (st : FilterState) (t : List Nat) : FilterState :=
  setPattern st (escapeLiteral t)

/-- One Core stream-processor framing step as performed per readiness
event when no flush is pending (`LogEngine.cpp` lines 203-233): the fresh
chunk is appended to the accumulator, complete matched lines are handed to
the sink in order, and the consumed prefix is erased.  The state is the
list of units handed to the sink so far paired with the accumulator. -/
def processStep (m : List Nat → Bool) (st : List (List Nat) × List Nat)
    (chunk : List Nat) : List (List Nat) × List Nat :=
  let r := scanLines m (st.2 ++ chunk)
  (st.1 ++ r.1, r.2)

/-- A whole Core stream-processor run over a sequence of reads, starting
from an empty accumulator, with no concurrent filter update (so the flush
check at line 196 never fires). -/
def processRun (m : List Nat → Bool) (chunks : List (List Nat)) :
    List (List Nat) × List Nat :=
  chunks.foldl (processStep m) ([], [])

/-- One Core iteration including the flush check at the top of the loop
body (`LogEngine.cpp` line 196): a pending flush request clears the
accumulator before the fresh bytes are appended, and is consumed. -/
def iterate (m : List Nat → Bool) (flush : Bool) (acc chunk : List Nat) :
    List (List Nat) × List Nat :=
  scanLines m ((if flush then [] else acc) ++ chunk)

/-- Behaviour of each `write` call observed by `safeWrite`: a successful
partial write of `n` bytes, an interrupted call (EINTR), a would-block
condition (EAGAIN/EWOULDBLOCK), or any other error. -/
inductive WriteRes where
  | wrote (n : Nat)
  | interrupted
  | wouldBlock
  | fatalErr
deriving DecidableEq

/-- Core-variant `LogEngine::safeWrite` (`LogEngine.cpp` lines 277-288)
over a script of write-call behaviours: loops while fewer than `len` bytes
are written; EINTR retries; any other failed call - a would-block
condition included - returns -1.  `none` marks runs outside the modelled
kernel behaviour (a script too short, a zero-byte or oversized success). -/
def safeWrite (total len : Nat) : List WriteRes → Option Int
  | [] => if len ≤ total then some (total : Int) else none
  | e :: rest =>
    if len ≤ total then some (total : Int)
    else
      match e with
      | WriteRes.wrote n =>
        if n = 0 ∨ len - total < n then none else safeWrite (total + n) len rest
      | WriteRes.interrupted => safeWrite total len rest
      | WriteRes.wouldBlock => some (-1)
      | WriteRes.fatalErr => some (-1)

end Core

namespace Part000

/-- Part000-variant `LogEngine::setPattern` (`part_000` lines 322-338):
identical to the Core variant except that there is no flush flag. -/
def setPattern (st : FilterState) (p : List Nat) : FilterState :=
  if p = [] then { st with ready := false }
  else
    match compileAtoms p with
    | some r => { st with regex := r, ready := true }
    | none => { st with ready := false }

/-- One part_000 framing iteration (`part_000` lines 251-294): the Core
framing step followed by the accumulator safety valve, which clears the
accumulator outright when it exceeds `READ_BUFFER_SIZE * 4`. -/
def iterate (m : List Nat → Bool) (acc chunk : List Nat) :
    List (List Nat) × List Nat :=
  let r := scanLines m (acc ++ chunk)
  (r.1, if READ_BUFFER_SIZE * 4 < r.2.length then [] else r.2)

/-- Fold step of a part_000 stream-processor run. -/
def processStep (m : List Nat → Bool) (st : List (List Nat) × List Nat)
    (chunk : List Nat) : List (List Nat) × List Nat :=
  let r := iterate m st.2 chunk
  (st.1 ++ r.1, r.2)

/-- A whole part_000 stream-processor run over a sequence of reads. -/
def processRun (m : List Nat → Bool) (chunks : List (List Nat)) :
    List (List Nat) × List Nat :=
  chunks.foldl (processStep m) ([], [])

/-- Part000-variant `LogEngine::safeWrite` (`part_000` lines 303-316):
like the Core variant but a would-block condition returns the partial
count written so far instead of -1; only other errors return -1. -/
def safeWrite (total len : Nat) : List Core.WriteRes → Option Int
  | [] => if len ≤ total then some (total : Int) else none
  | e :: rest =>
    if len ≤ total then some (total : Int)
    else
      match e with
      | Core.WriteRes.wrote n =>
        if n = 0 ∨ len - total < n then none else safeWrite (total + n) len rest
      | Core.WriteRes.interrupted => safeWrite total len rest
      | Core.WriteRes.wouldBlock => some (total : Int)
      | Core.WriteRes.fatalErr => some (-1)

end Part000

/-- Error codes distinguished by the engine around `read` and
`epoll_wait`. -/
inductive Errno where
  | eintr
  | eagain
  | ewouldblock
  | other
deriving DecidableEq

/-- Result of one `read` call: `bytes n` models a return value `n ≥ 0`
(`0` is EOF); `fail e` models a return of -1 with `errno = e`. -/
inductive ReadOutcome where
  | bytes (n : Nat)
  | fail (e : Errno)
deriving DecidableEq

/-- Whether a read outcome is a successful data delivery (a strictly
positive byte count). -/
def ReadOutcome.isData : ReadOutcome → Bool
  | ReadOutcome.bytes (_ + 1) => true
  | _ => false

/-- Reaction of the stream-processor loop to one read result. -/
structure ReadAction where
  endsRun : Bool
  logsFailure : Bool
deriving DecidableEq

namespace Part000

/-- Part000-variant read step (`part_000` lines 251-258): any result that
is not a positive byte count breaks out of the processing loop; the only
errno distinction made is that transient errors (EAGAIN, EWOULDBLOCK,
EINTR) are not logged as failures. -/
def readStep : ReadOutcome → ReadAction
  | ReadOutcome.bytes 0 => { endsRun := true, logsFailure := false }
  | ReadOutcome.bytes (_ + 1) => { endsRun := false, logsFailure := false }
  | ReadOutcome.fail e =>
    { endsRun := true,
      logsFailure := !(e == Errno.eagain) && !(e == Errno.ewouldblock) && !(e == Errno.eintr) }

/-- Part000-variant reaction to a failed `epoll_wait` (`part_000` lines
233-238): EINTR continues the loop, anything else breaks. -/
def epollErrEndsRun (e : Errno) : Bool :=
  !(e == Errno.eintr)

end Part000

namespace Core

/-- Core-variant read step (`LogEngine.cpp` lines 203-204): any result
that is not a positive byte count breaks out of the loop; nothing is
logged. -/
def readStep : ReadOutcome → ReadAction
  | ReadOutcome.bytes (_ + 1) => { endsRun := false, logsFailure := false }
  | _ => { endsRun := true, logsFailure := false }

end Core

/-- Logcat execution configuration (`LogEngine.hpp` lines 15-20). -/
structure LogConfig where
  pid : String
  level : String
  tagFilter : String
  customRegex : String

/-- Source command construction inside `LogEngine::start`
(`LogEngine.cpp` lines 63-65, `part_000` lines 86-88). -/
def buildCmd (cfg : LogConfig) : String :=
  let cmd := "/system/bin/logcat -v time"
  let cmd := if cfg.pid.isEmpty then cmd else cmd ++ " --pid=" ++ cfg.pid
  if cfg.tagFilter.isEmpty then cmd ++ " *:" ++ cfg.level else cmd ++ " " ++ cfg.tagFilter

/-- Environment of one `start` call: whether `pipe` succeeds, the read
descriptor it would allocate, and whether `pthread_create` succeeds. -/
structure StartEnv where
  pipeOk : Bool
  pipeReadFd : Nat
  threadOk : Bool

/-- Observable outcome of one `start` call: the returned value, the
running flag afterwards, and the fate of the resources created during the
call (the two pipe descriptors and the `ThreadArgs` allocation). -/
structure StartResult where
  ret : Int
  running : Bool
  fdsCreated : Nat
  fdsClosed : Nat
  argsAllocated : Bool
  argsFreed : Bool
  threadStarted : Bool
deriving DecidableEq

/-- Embedding of `LogEngine::start` (`LogEngine.cpp` lines 43-76,
`part_000` lines 61-101): `m_running.exchange(true)` rejects a second
concurrent start; a pipe failure resets the flag and returns -1 having
created nothing; a thread-creation failure closes both pipe descriptors,
frees the `ThreadArgs`, resets the flag and returns -1; on success the
read end is returned (its ownership passes to the caller, the write end
and the `ThreadArgs` to the worker thread). -/
def start (running0 : Bool) (env : StartEnv) : StartResult :=
  if running0 then
    { ret := -1, running := true, fdsCreated := 0, fdsClosed := 0,
      argsAllocated := false, argsFreed := false, threadStarted := false }
  else if !env.pipeOk then
    { ret := -1, running := false, fdsCreated := 0, fdsClosed := 0,
      argsAllocated := false, argsFreed := false, threadStarted := false }
  else if !env.threadOk then
    { ret := -1, running := false, fdsCreated := 2, fdsClosed := 2,
      argsAllocated := true, argsFreed := true, threadStarted := false }
  else
    { ret := (env.pipeReadFd : Int), running := true, fdsCreated := 2, fdsClosed := 0,
      argsAllocated := true, argsFreed := false, threadStarted := true }

/-- The three serializations of the reader's two observation points (the
`m_regex_ready` load at `LogEngine.cpp` line 221, outside the lock, and
the locked matcher search at lines 222-224) against one atomic
`setPattern` call, which holds the spinlock for its whole body: both
observations before the update, the flag load before and the locked
search after, or both after. -/
inductive ReaderSchedule where
  | bothBefore
  | splitAcross
  | bothAfter
deriving DecidableEq

/-- Pattern state at the moment of the reader's ready-flag load. -/
def flagSeenState : ReaderSchedule → FilterState → FilterState → FilterState
  | ReaderSchedule.bothBefore, s0, _ => s0
  | ReaderSchedule.splitAcross, s0, _ => s0
  | ReaderSchedule.bothAfter, _, s1 => s1

/-- Pattern state at the moment of the reader's locked matcher search. -/
def matchSeenState : ReaderSchedule → FilterState → FilterState → FilterState
  | ReaderSchedule.bothBefore, s0, _ => s0
  | ReaderSchedule.splitAcross, _, s1 => s1
  | ReaderSchedule.bothAfter, _, s1 => s1

/-- Match outcome observed by the reader for one line under a given
interleaving: the ready flag read outside the lock gates whether the
locked search runs at all; the search, when it runs, uses the matcher
slot of the state current at lock acquisition. -/
def readerResult (sch : ReaderSchedule) (s0 s1 : FilterState) (line : List Nat) : Bool :=
  if (flagSeenState sch s0 s1).ready then searchAtoms (matchSeenState sch s0 s1).regex line
  else true

theorem specSplit_cons_nl (bs : List Nat) :
    specSplit (NL :: bs) = ([] :: (specSplit bs).1, (specSplit bs).2) := by
  simp [specSplit]

theorem specSplit_cons_ne_cons {b : Nat} {bs l r : List Nat} {ls : List (List Nat)}
    (hb : b ≠ NL) (h : specSplit bs = (l :: ls, r)) :
    specSplit (b :: bs) = ((b :: l) :: ls, r) := by
  simp [specSplit, hb, h]

theorem specSplit_cons_ne_nil {b : Nat} {bs r : List Nat}
    (hb : b ≠ NL) (h : specSplit bs = ([], r)) :
    specSplit (b :: bs) = ([], b :: r) := by
  simp [specSplit, hb, h]

theorem specSplit_of_not_mem {s : List Nat} (h : NL ∉ s) : specSplit s = ([], s) := by
  induction s with
  | nil => rfl
  | cons b bs ih =>
    have hb : b ≠ NL := fun hb => h (hb ▸ List.mem_cons_self b bs)
    have hbs : NL ∉ bs := fun hm => h (List.mem_cons_of_mem b hm)
    exact specSplit_cons_ne_nil hb (ih hbs)

theorem specSplit_append_nl {cur : List Nat} (bs : List Nat) (h : NL ∉ cur) :
    specSplit (cur ++ NL :: bs) = (cur :: (specSplit bs).1, (specSplit bs).2) := by
  induction cur with
  | nil => simp [specSplit_cons_nl]
  | cons c cs ih =>
    have hc : c ≠ NL := fun hc => h (hc ▸ List.mem_cons_self c cs)
    have hcs : NL ∉ cs := fun hm => h (List.mem_cons_of_mem c hm)
    rw [List.cons_append, specSplit_cons_ne_cons hc]
    rw [ih hcs]

theorem specSplit_append (s t : List Nat) :
    specSplit (s ++ t)
      = ((specSplit s).1 ++ (specSplit ((specSplit s).2 ++ t)).1,
         (specSplit ((specSplit s).2 ++ t)).2) := by
  induction s with
  | nil => simp [specSplit]
  | cons b bs ih =>
    by_cases hb : b = NL
    · subst hb
      simp only [List.cons_append, specSplit_cons_nl, ih]
    · rcases hbs : specSplit bs with ⟨bl, br⟩
      rcases bl with _ | ⟨l, ls⟩
      · have hsb : specSplit (b :: bs) = ([], b :: br) := specSplit_cons_ne_nil hb hbs
        rw [hbs] at ih
        simp only [List.nil_append] at ih
        rcases hx : specSplit (br ++ t) with ⟨xl, xr⟩
        rw [hx] at ih
        rcases xl with _ | ⟨x, xs⟩
        · have h1 : specSplit (bs ++ t) = ([], xr) := by rw [ih]
          have h2 : specSplit (b :: (bs ++ t)) = ([], b :: xr) :=
            specSplit_cons_ne_nil hb h1
          have h3 : specSplit (b :: (br ++ t)) = ([], b :: xr) :=
            specSplit_cons_ne_nil hb hx
          simp only [List.cons_append, h2, hsb, h3]
          simp
        · have h1 : specSplit (bs ++ t) = (x :: xs, xr) := by rw [ih]
          have h2 := specSplit_cons_ne_cons hb h1
          have h3 := specSplit_cons_ne_cons hb hx
          simp only [List.cons_append, h2, hsb, h3]
          simp
      · have hsb : specSplit (b :: bs) = ((b :: l) :: ls, br) := specSplit_cons_ne_cons hb hbs
        rw [hbs] at ih
        have h1 : specSplit (bs ++ t)
            = (l :: (ls ++ (specSplit (br ++ t)).1), (specSplit (br ++ t)).2) := by
          rw [ih]; simp
        have h2 := specSplit_cons_ne_cons hb h1
        simp only [List.cons_append, h2, hsb]

theorem nl_not_mem_specTrailing (s : List Nat) : NL ∉ (specSplit s).2 := by
  induction s with
  | nil => simp [specSplit]
  | cons b bs ih =>
    by_cases hb : b = NL
    · subst hb
      rw [specSplit_cons_nl]
      exact ih
    · rcases hbs : specSplit bs with ⟨bl, br⟩
      rw [hbs] at ih
      rcases hbl : bl with _ | ⟨l, ls⟩
      · subst hbl
        rw [specSplit_cons_ne_nil hb hbs]
        intro hmem
        rcases List.mem_cons.mp hmem with h1 | h2
        · exact hb h1.symm
        · exact ih h2
      · subst hbl
        rw [specSplit_cons_ne_cons hb hbs]
        exact ih

theorem nl_not_mem_of_mem_specLines {s l : List Nat} (h : l ∈ (specSplit s).1) : NL ∉ l := by
  induction s generalizing l with
  | nil => simp [specSplit] at h
  | cons b bs ih =>
    by_cases hb : b = NL
    · subst hb
      rw [specSplit_cons_nl] at h
      rcases List.mem_cons.mp h with h1 | h2
      · subst h1; simp
      · exact ih h2
    · rcases hbs : specSplit bs with ⟨bl, br⟩
      rcases hbl : bl with _ | ⟨l0, ls⟩
      · subst hbl
        rw [specSplit_cons_ne_nil hb hbs] at h
        simp at h
      · subst hbl
        rw [specSplit_cons_ne_cons hb hbs] at h
        rcases List.mem_cons.mp h with h1 | h2
        · subst h1
          intro hmem
          rcases List.mem_cons.mp hmem with h3 | h4
          · exact hb h3.symm
          · exact ih (by rw [hbs]; exact List.mem_cons_self l0 ls) h4
        · exact ih (by rw [hbs]; exact List.mem_cons_of_mem l0 h2)

theorem scanGo_eq_specSplit (m : List Nat → Bool) (s : List Nat) :
    ∀ cur : List Nat, NL ∉ cur →
      scanGo m cur s
        = ((specSplit (cur ++ s)).1.filterMap
             (fun l => if m l then some (l ++ [NL]) else none),
           (specSplit (cur ++ s)).2) := by
  induction s with
  | nil =>
    intro cur h
    simp [scanGo, specSplit_of_not_mem h]
  | cons b bs ih =>
    intro cur h
    by_cases hb : b = NL
    · subst hb
      have hnil : (NL : Nat) ∉ ([] : List Nat) := by simp
      rw [scanGo, if_pos rfl]
      simp only [ih [] hnil, specSplit_append_nl bs h, List.nil_append]
      cases hm : m cur <;> simp [hm]
    · have hcur : NL ∉ cur ++ [b] := by
        intro hmem
        rcases List.mem_append.mp hmem with h1 | h2
        · exact h h1
        · exact hb (List.mem_singleton.mp h2).symm
      rw [scanGo, if_neg hb, ih (cur ++ [b]) hcur, List.append_assoc,
        List.singleton_append]

theorem scanLines_eq (m : List Nat → Bool) (buf : List Nat) :
    scanLines m buf = (specDelivered m buf, specTrailing buf) := by
  simpa [scanLines, specDelivered, specTrailing] using
    scanGo_eq_specSplit m buf [] (by simp)

theorem specDelivered_append (m : List Nat → Bool) (s t : List Nat) :
    specDelivered m (s ++ t)
      = specDelivered m s ++ specDelivered m (specTrailing s ++ t) := by
  simp only [specDelivered, specTrailing, specSplit_append s t, List.filterMap_append]

theorem specTrailing_append (s t : List Nat) :
    specTrailing (s ++ t) = specTrailing (specTrailing s ++ t) := by
  simp only [specTrailing, specSplit_append s t]

theorem core_foldl_eq (m : List Nat → Bool) (chunks : List (List Nat)) :
    ∀ (ds : List (List Nat)) (acc : List Nat), NL ∉ acc →
      chunks.foldl (Core.processStep m) (ds, acc)
        = (ds ++ specDelivered m (acc ++ chunks.flatten),
           specTrailing (acc ++ chunks.flatten)) := by
  induction chunks with
  | nil =>
    intro ds acc h
    simp [specDelivered, specTrailing, specSplit_of_not_mem h]
  | cons c rest ih =>
    intro ds acc h
    rw [List.foldl_cons]
    have hstep : Core.processStep m (ds, acc) c
        = (ds ++ specDelivered m (acc ++ c), specTrailing (acc ++ c)) := by
      simp [Core.processStep, scanLines_eq]
    rw [hstep, ih (ds ++ specDelivered m (acc ++ c)) (specTrailing (acc ++ c))
      (nl_not_mem_specTrailing (acc ++ c))]
    rw [List.flatten_cons, ← List.append_assoc,
      specDelivered_append m (acc ++ c) rest.flatten,
      specTrailing_append (acc ++ c) rest.flatten, List.append_assoc]

theorem core_processRun_eq (m : List Nat → Bool) (chunks : List (List Nat)) :
    Core.processRun m chunks
      = (specDelivered m chunks.flatten, specTrailing chunks.flatten) := by
  have h := core_foldl_eq m chunks [] [] (by simp)
  simpa [Core.processRun] using h

theorem specDelivered_wellFramed (m : List Nat → Bool) (s : List Nat) :
    ∀ u ∈ specDelivered m s, u.count NL = 1 ∧ u.getLast? = some NL := by
  intro u hu
  simp only [specDelivered, List.mem_filterMap] at hu
  obtain ⟨l, hl, hopt⟩ := hu
  have hnl : NL ∉ l := nl_not_mem_of_mem_specLines hl
  by_cases hm : m l
  · rw [if_pos hm, Option.some.injEq] at hopt
    subst hopt
    constructor
    · rw [List.count_append]
      have h0 : l.count NL = 0 := List.count_eq_zero.mpr hnl
      simp [h0]
    · exact List.getLast?_concat l
  · rw [if_neg hm] at hopt
    exact absurd hopt (by simp)

theorem nl_not_mem_replicate (n : Nat) : NL ∉ List.replicate n 97 := by
  intro h
  have h2 := (List.mem_replicate.mp h).2
  simp [NL] at h2

theorem flatten_replicate_replicate (n k a : Nat) :
    (List.replicate n (List.replicate k a)).flatten = List.replicate (n * k) a := by
  induction n with
  | zero => simp
  | succ j ih =>
    rw [List.replicate_succ, List.flatten_cons, ih, ← List.replicate_add]
    congr 1
    ring

theorem part000_step_no_nl (m : List Nat → Bool) (ds : List (List Nat))
    (acc c : List Nat) (h : NL ∉ acc ++ c) :
    Part000.processStep m (ds, acc) c
      = (ds, if READ_BUFFER_SIZE * 4 < (acc ++ c).length then [] else acc ++ c) := by
  simp [Part000.processStep, Part000.iterate, scanLines_eq, specDelivered, specTrailing,
    specSplit_of_not_mem h]

theorem part000_step_replicate (m : List Nat → Bool) (ds : List (List Nat)) (j k : Nat) :
    Part000.processStep m (ds, List.replicate j 97) (List.replicate k 97)
      = (ds, if READ_BUFFER_SIZE * 4 < j + k then [] else List.replicate (j + k) 97) := by
  have hrep : List.replicate j 97 ++ List.replicate k 97 = List.replicate (j + k) 97 :=
    (List.replicate_add j k 97).symm
  have h := part000_step_no_nl m ds (List.replicate j 97) (List.replicate k 97)
    (by rw [hrep]; exact nl_not_mem_replicate (j + k))
  rw [h, hrep, List.length_replicate]

theorem part000_iterate_acc_le (m : List Nat → Bool) (acc chunk : List Nat) :
    (Part000.iterate m acc chunk).2.length ≤ READ_BUFFER_SIZE * 4 := by
  simp only [Part000.iterate]
  split
  · simp
  · omega

theorem part000_foldl_acc_le (m : List Nat → Bool) (chunks : List (List Nat)) :
    ∀ (st : List (List Nat) × List Nat) (chunk : List Nat),
      ((chunk :: chunks).foldl (Part000.processStep m) st).2.length
        ≤ READ_BUFFER_SIZE * 4 := by
  induction chunks with
  | nil =>
    intro st chunk
    rw [List.foldl_cons, List.foldl_nil]
    exact part000_iterate_acc_le m st.2 chunk
  | cons c cs ih =>
    intro st chunk
    rw [List.foldl_cons]
    exact ih _ c

/-- Claim C1, counterexample to the claim as stated: the part_000 variant
of the stream processor (one of the two variants the claim is about) does
not deliver exactly the complete lines of the input.  Feeding five full
read-buffer chunks of the byte 97 with no line feed trips the safety
valve, which discards the buffered prefix, so when the line feed finally
arrives only the one-byte unit consisting of the line feed is delivered
instead of the 655361-byte complete line of the input. -/
theorem claim_C1_counterexample :
    (Part000.processRun (fun _ => true)
        (List.replicate 5 (List.replicate READ_BUFFER_SIZE 97) ++ [[NL]])).1
      ≠ specDelivered (fun _ => true)
          ((List.replicate 5 (List.replicate READ_BUFFER_SIZE 97) ++ [[NL]]).flatten) := by
  have hrep5 : List.replicate 5 (List.replicate READ_BUFFER_SIZE 97) ++ [[NL]]
      = [List.replicate READ_BUFFER_SIZE 97, List.replicate READ_BUFFER_SIZE 97,
         List.replicate READ_BUFFER_SIZE 97, List.replicate READ_BUFFER_SIZE 97,
         List.replicate READ_BUFFER_SIZE 97, [NL]] := rfl
  have hstep : ∀ j k : Nat, ¬ READ_BUFFER_SIZE * 4 < j + k →
      Part000.processStep (fun _ => true)
        (([] : List (List Nat)), List.replicate j 97) (List.replicate k 97)
        = ([], List.replicate (j + k) 97) := by
    intro j k h
    rw [part000_step_replicate, if_neg h]
  have hstepc : ∀ j k : Nat, READ_BUFFER_SIZE * 4 < j + k →
      Part000.processStep (fun _ => true)
        (([] : List (List Nat)), List.replicate j 97) (List.replicate k 97)
        = ([], []) := by
    intro j k h
    rw [part000_step_replicate, if_pos h]
  have hL : (Part000.processRun (fun _ => true)
      (List.replicate 5 (List.replicate READ_BUFFER_SIZE 97) ++ [[NL]])).1 = [[NL]] := by
    rw [hrep5]
    simp only [Part000.processRun, List.foldl_cons, List.foldl_nil]
    rw [show (([] : List (List Nat)), ([] : List Nat))
        = (([] : List (List Nat)), List.replicate 0 97) from by simp]
    rw [hstep 0 READ_BUFFER_SIZE (by norm_num [READ_BUFFER_SIZE])]
    rw [hstep (0 + READ_BUFFER_SIZE) READ_BUFFER_SIZE (by norm_num [READ_BUFFER_SIZE])]
    rw [hstep (0 + READ_BUFFER_SIZE + READ_BUFFER_SIZE) READ_BUFFER_SIZE
      (by norm_num [READ_BUFFER_SIZE])]
    rw [hstep (0 + READ_BUFFER_SIZE + READ_BUFFER_SIZE + READ_BUFFER_SIZE) READ_BUFFER_SIZE
      (by norm_num [READ_BUFFER_SIZE])]
    rw [hstepc (0 + READ_BUFFER_SIZE + READ_BUFFER_SIZE + READ_BUFFER_SIZE + READ_BUFFER_SIZE)
      READ_BUFFER_SIZE (by norm_num [READ_BUFFER_SIZE])]
    rfl
  have hflat : (List.replicate 5 (List.replicate READ_BUFFER_SIZE 97) ++ [[NL]]).flatten
      = List.replicate (5 * READ_BUFFER_SIZE) 97 ++ [NL] := by
    rw [List.flatten_append, flatten_replicate_replicate]
    simp
  have hspec : specDelivered (fun _ => true)
      (List.replicate (5 * READ_BUFFER_SIZE) 97 ++ [NL])
      = [List.replicate (5 * READ_BUFFER_SIZE) 97 ++ [NL]] := by
    have h := specSplit_append_nl ([] : List Nat)
      (nl_not_mem_replicate (5 * READ_BUFFER_SIZE))
    simp only [specDelivered, h]
    simp [specSplit]
  intro hEq
  rw [hL, hflat, hspec] at hEq
  injection hEq with h1 h2
  have hlen := congrArg List.length h1
  rw [List.length_append, List.length_replicate] at hlen
  have hB : READ_BUFFER_SIZE = 131072 := rfl
  rw [hB] at hlen
  simp only [List.length_cons, List.length_nil] at hlen
  omega

/-- Claim C1, amended: for the Core variant of the stream processor (which
has no accumulator safety valve), for every match predicate and every
sequence of byte chunks, the units handed to the delivery sink are exactly
the matched complete lines of the concatenated input in order, each
delivered unit is terminated by exactly one line feed as its final byte
and contains no embedded line feed, and the trailing bytes after the last
line feed are retained in the accumulator; the two-read scenario of the
claim (reading the bytes of the text hel and then lo, line feed, world,
line feed) delivers exactly the two lines hello and world, in order,
each with its terminator.  In the part_000 variant the same holds except
that a buffered prefix discarded by the safety valve (claim C2) is missing
from the eventually delivered line. -/
theorem claim_C1_framing (m : List Nat → Bool) (chunks : List (List Nat)) :
    Core.processRun m chunks
      = (specDelivered m chunks.flatten, specTrailing chunks.flatten)
    ∧ (Core.processRun m chunks).1.all
        (fun u => (u.count NL == 1) && (u.getLast? == some NL)) = true
    ∧ Core.processRun (fun _ => true)
        [[104, 101, 108], [108, 111, 10, 119, 111, 114, 108, 100, 10]]
        = ([[104, 101, 108, 108, 111, 10], [119, 111, 114, 108, 100, 10]], []) := by
  refine ⟨core_processRun_eq m chunks, ?_, by rfl⟩
  rw [core_processRun_eq]
  apply List.all_eq_true.mpr
  intro u hu
  simp only at hu
  obtain ⟨h1, h2⟩ := specDelivered_wellFramed m chunks.flatten u hu
  simp [h1, h2]

/-- Claim C2, counterexample to the claim as stated: the Core variant of
the stream processor has no accumulator safety valve.  Feeding five full
read-buffer chunks with no line feed leaves the accumulator at five times
the read-buffer size, beyond the claimed 4x clearing threshold, and it is
not cleared. -/
theorem claim_C2_counterexample :
    (Core.processRun (fun _ => true)
        (List.replicate 5 (List.replicate READ_BUFFER_SIZE 97))).2.length
      = 5 * READ_BUFFER_SIZE
    ∧ READ_BUFFER_SIZE * 4 < 5 * READ_BUFFER_SIZE
    ∧ (Core.processRun (fun _ => true)
        (List.replicate 5 (List.replicate READ_BUFFER_SIZE 97))).2 ≠ [] := by
  have h := core_processRun_eq (fun _ => true)
    (List.replicate 5 (List.replicate READ_BUFFER_SIZE 97))
  rw [flatten_replicate_replicate] at h
  have htr : specTrailing (List.replicate (5 * READ_BUFFER_SIZE) 97)
      = List.replicate (5 * READ_BUFFER_SIZE) 97 := by
    rw [specTrailing, specSplit_of_not_mem (nl_not_mem_replicate _)]
  refine ⟨?_, by norm_num [READ_BUFFER_SIZE], ?_⟩
  · rw [h]
    dsimp only
    rw [htr, List.length_replicate]
  · rw [h]
    dsimp only
    rw [htr]
    intro hh
    have hlen := congrArg List.length hh
    rw [List.length_replicate] at hlen
    have hB : READ_BUFFER_SIZE = 131072 := rfl
    rw [hB] at hlen
    simp only [List.length_nil] at hlen
    omega

/-- Claim C2, amended: the part_000 variant of the stream processor has
the claimed safety valve: after each iteration the retained accumulator is
exactly the trailing partial line, except that it is cleared outright
whenever it exceeds 4 times the read-buffer size, so over any nonempty
run of iterations the accumulator size stays bounded by 4 times the
read-buffer size.  The Core variant has no such valve (see the
counterexample). -/
theorem claim_C2_valve (m : List Nat → Bool) (acc chunk : List Nat)
    (chunks : List (List Nat)) (st : List (List Nat) × List Nat) :
    Part000.iterate m acc chunk
      = (specDelivered m (acc ++ chunk),
         if READ_BUFFER_SIZE * 4 < (specTrailing (acc ++ chunk)).length then []
         else specTrailing (acc ++ chunk))
    ∧ (Part000.iterate m acc chunk).2.length ≤ READ_BUFFER_SIZE * 4
    ∧ ((chunk :: chunks).foldl (Part000.processStep m) st).2.length
        ≤ READ_BUFFER_SIZE * 4 := by
  refine ⟨?_, part000_iterate_acc_le m acc chunk, part000_foldl_acc_le m chunks st chunk⟩
  simp [Part000.iterate, scanLines_eq]

theorem compileAtoms_escapeLiteral (t : List Nat) :
    compileAtoms (escapeLiteral t) = some (t.map RAtom.lit) := by
  induction t with
  | nil => rfl
  | cons c cs ih =>
    by_cases hc : c ∈ specials
    · have h : escapeLiteral (c :: cs) = 92 :: c :: escapeLiteral cs := by
        simp [escapeLiteral, hc]
      rw [h, compileAtoms.eq_def]
      simp [hc, ih]
    · have h : escapeLiteral (c :: cs) = c :: escapeLiteral cs := by
        simp [escapeLiteral, hc]
      have h92 : c ≠ 92 := fun hh => hc (hh ▸ (by decide : (92 : Nat) ∈ specials))
      have h46 : c ≠ 46 := fun hh => hc (hh ▸ (by decide : (46 : Nat) ∈ specials))
      rw [h, compileAtoms.eq_def]
      simp [h92, h46, hc, ih]

theorem matchHere_lit (t : List Nat) :
    ∀ s : List Nat,
      (matchHere (t.map RAtom.lit) s = true
        ↔ t.map toLowerByte <+: s.map toLowerByte) := by
  induction t with
  | nil =>
    intro s
    simp [matchHere]
  | cons c cs ih =>
    intro s
    cases s with
    | nil => simp [matchHere, List.prefix_nil]
    | cons b bs =>
      simp [matchHere, matchAtom, ih bs, List.cons_prefix_cons, Bool.and_eq_true]

theorem searchAtoms_lit (t : List Nat) :
    ∀ s : List Nat,
      (searchAtoms (t.map RAtom.lit) s = true
        ↔ t.map toLowerByte <:+: s.map toLowerByte) := by
  intro s
  induction s with
  | nil =>
    simp [searchAtoms, matchHere_lit, List.infix_nil, List.prefix_nil]
  | cons b bs ih =>
    simp only [searchAtoms, Bool.or_eq_true, ih, matchHere_lit, List.map_cons]
    rw [List.infix_cons_iff]

/-- Claim C7, counterexample to the claim as stated: the filter produced
by `updateLiteral` does not match exactly the lines containing the given
text as a literal substring, because the pattern is compiled
case-insensitively: after `updateLiteral` with the single byte of the
lowercase letter a, the line consisting of the single byte of the
uppercase letter A matches, although it does not contain the lowercase
text as a substring. -/
theorem claim_C7_counterexample :
    evalLine (Core.updateLiteral initialFilterState [97]) [65] = true
    ∧ ¬ ([97] : List Nat) <:+: [65] := by
  constructor
  · rfl
  · decide

/-- Claim C7, amended: `updateLiteral` prefixes every occurrence of each
matcher-special character (backslash, caret, dollar, dot, star, plus,
question mark, parentheses, brackets, braces, vertical bar) in its input
with a backslash before delegating to `setPattern`, and the escaped
pattern always compiles to the sequence of literal atoms of the text; for
every text the resulting filter matches exactly the lines containing that
text as a case-insensitive literal substring (the matcher is compiled
with icase).  In particular the filter for the text a dot b matches the
line a dot b and does not match the line a X b. -/
theorem claim_C7_literal (st : FilterState) (t line : List Nat) :
    compileAtoms (escapeLiteral t) = some (t.map RAtom.lit)
    ∧ (evalLine (Core.updateLiteral st t) line = true
        ↔ t.map toLowerByte <:+: line.map toLowerByte)
    ∧ evalLine (Core.updateLiteral initialFilterState [97, 46, 98]) [97, 46, 98] = true
    ∧ evalLine (Core.updateLiteral initialFilterState [97, 46, 98]) [97, 88, 98] = false := by
  refine ⟨compileAtoms_escapeLiteral t, ?_, by rfl, by rfl⟩
  cases t with
  | nil =>
    simp [Core.updateLiteral, Core.setPattern, escapeLiteral, evalLine]
  | cons c cs =>
    have hne : escapeLiteral (c :: cs) ≠ [] := by
      by_cases hc : c ∈ specials <;> simp [escapeLiteral, hc]
    have hc := compileAtoms_escapeLiteral (c :: cs)
    rw [Core.updateLiteral, Core.setPattern, if_neg hne, hc]
    simp only [evalLine, if_pos rfl]
    exact searchAtoms_lit (c :: cs) line

/-- Claim C6: `setPattern` stores ready=false on empty input; on any
input the stored ready flag is true exactly when the pattern is nonempty
and compiles, so a compile failure also stores ready=false; neither case
is surfaced to the caller as an error (the embedded `setPattern` is a
total function into the filter state, mirroring the catch-all handler);
with ready=false every candidate line is treated as matched, so the
framing scan delivers every complete line regardless of content; and the
concrete malformed pattern consisting of a lone opening parenthesis
(which the matcher engine rejects) stores ready=false. -/
theorem claim_C6_fail_open (st : FilterState) (p : List Nat) (line s : List Nat)
    (regex : List RAtom) (flush : Bool) :
    (Core.setPattern st []).ready = false
    ∧ (Core.setPattern st p).ready = (!p.isEmpty && (compileAtoms p).isSome)
    ∧ evalLine { ready := false, regex := regex, flush := flush } line = true
    ∧ scanLines (evalLine { ready := false, regex := regex, flush := flush }) s
        = scanLines (fun _ => true) s
    ∧ (Core.setPattern st [40]).ready = false := by
  have hpass : evalLine { ready := false, regex := regex, flush := flush }
      = fun _ : List Nat => true := by
    funext l
    simp [evalLine]
  refine ⟨by simp [Core.setPattern], ?_, by simp [evalLine], by rw [hpass], ?_⟩
  · by_cases hp : p = []
    · subst hp
      simp [Core.setPattern]
    · rw [Core.setPattern, if_neg hp]
      rcases hcp : compileAtoms p with _ | r
      · simp [hcp, hp]
      · simp [hcp, hp]
  · rw [Core.setPattern]
    norm_num
    rw [show compileAtoms [40] = none from rfl]

/-- Claim C10: every `setPattern` call that reaches the ready-flag store
without throwing sets the flush flag: the stored flush flag is true
exactly when the pattern is empty or compiles (otherwise the old value is
kept, since the store at line 258 sits after the throwing constructor);
`updateLiteral` always sets it, since an escaped literal always compiles
or is empty; and at the next readiness event a pending flush makes the
stream processor clear the accumulator before appending the fresh bytes,
discarding the buffered partial line, so the iteration result is
independent of the prior accumulator content. -/
theorem claim_C10_flush_effect (st : FilterState) (p t : List Nat)
    (m : List Nat → Bool) (acc chunk : List Nat) :
    (Core.setPattern st p).flush = (p.isEmpty || (compileAtoms p).isSome || st.flush)
    ∧ (Core.updateLiteral st t).flush = true
    ∧ Core.iterate m true acc chunk = scanLines m chunk
    ∧ Core.iterate m true acc chunk = Core.iterate m true [] chunk := by
  refine ⟨?_, ?_, by simp [Core.iterate], by simp [Core.iterate]⟩
  · by_cases hp : p = []
    · subst hp
      simp [Core.setPattern]
    · rw [Core.setPattern, if_neg hp]
      rcases hcp : compileAtoms p with _ | r
      · simp [hcp, hp]
      · simp [hcp, hp]
  · rw [Core.updateLiteral]
    cases t with
    | nil => simp [Core.setPattern, escapeLiteral]
    | cons c cs =>
      have hne : escapeLiteral (c :: cs) ≠ [] := by
        by_cases hc : c ∈ specials <;> simp [escapeLiteral, hc]
      rw [Core.setPattern, if_neg hne, compileAtoms_escapeLiteral]

/-- Claim C5, counterexample to the claim as stated: the ready flag and
the compiled matcher are not observed together inside the critical
section: the flag load (`LogEngine.cpp` line 221) happens before the
spinlock acquisition (line 222), so in the interleaving where one
`setPattern` call runs between the two observation points the reader can
see the flag value true from the state before the update while the locked
matcher access sees the state after the update, whose ready flag is
false. -/
theorem claim_C5_counterexample :
    (flagSeenState ReaderSchedule.splitAcross
        { ready := true, regex := [], flush := false }
        (Core.setPattern { ready := true, regex := [], flush := false } [])).ready = true
    ∧ (matchSeenState ReaderSchedule.splitAcross
        { ready := true, regex := [], flush := false }
        (Core.setPattern { ready := true, regex := [], flush := false } [])).ready
        = false := by
  exact ⟨rfl, rfl⟩

/-- Claim C5, amended: for every line evaluated concurrently with one
`setPattern` call, the match outcome equals the evaluation under either
the complete pattern state from before the update or the complete pattern
state from after it, never a mixture - but not because flag and matcher
are observed jointly in the critical section (the flag is read before the
lock is taken); the guarantee holds because `setPattern` holds the
spinlock for its whole body (so the locked matcher search sees a complete
state) and never modifies the matcher slot on the paths that set the
ready flag to false. -/
theorem claim_C5_no_mixture (sch : ReaderSchedule) (s0 : FilterState) (p line : List Nat) :
    readerResult sch s0 (Core.setPattern s0 p) line = evalLine s0 line
    ∨ readerResult sch s0 (Core.setPattern s0 p) line
        = evalLine (Core.setPattern s0 p) line := by
  cases sch with
  | bothBefore => left; rfl
  | bothAfter => right; rfl
  | splitAcross =>
    by_cases hr : s0.ready
    · rw [readerResult]
      simp only [flagSeenState, matchSeenState, if_pos hr]
      by_cases hp : p = []
      · subst hp
        left
        simp [Core.setPattern, evalLine, hr]
      · rcases hcp : compileAtoms p with _ | r
        · left
          rw [Core.setPattern, if_neg hp, hcp]
          simp [evalLine, hr]
        · right
          rw [Core.setPattern, if_neg hp, hcp]
          simp [evalLine]
    · left
      rw [readerResult]
      simp [flagSeenState, evalLine, hr]

/-- Claim C3, counterexample to the claim as stated: in the Core variant
of `safeWrite` (one of the two variants the claim is about) a would-block
condition is not returned as the partial count: after a successful write
of 4 of 6 bytes followed by a would-block condition, the Core variant
returns -1 - the failure value the claim reserves for other I/O errors -
instead of the partial count 4. -/
theorem claim_C3_counterexample :
    Core.safeWrite 0 6 [Core.WriteRes.wrote 4, Core.WriteRes.wouldBlock] = some (-1)
    ∧ some (-1 : Int) ≠ some (4 : Int) := by
  constructor
  · rfl
  · decide

/-- Claim C3, amended: in the part_000 variant, `safeWrite` on a
would-block condition stops and returns the partial count of bytes
written so far (a non-negative number) instead of retrying or blocking,
the remainder of the frame being dropped; an interrupted call is retried;
only another I/O error returns the failure value -1; a successful partial
write accumulates and the loop continues; when the requested length is
reached the total is returned.  In the Core variant a would-block
condition returns -1 exactly like any other error. -/
theorem claim_C3_safeWrite (total k j : Nat) (evs : List Core.WriteRes) :
    Part000.safeWrite total (total + k + 1) (Core.WriteRes.wouldBlock :: evs)
        = some (total : Int)
    ∧ Part000.safeWrite total (total + k + 1) (Core.WriteRes.fatalErr :: evs) = some (-1)
    ∧ Part000.safeWrite total (total + k + 1) (Core.WriteRes.interrupted :: evs)
        = Part000.safeWrite total (total + k + 1) evs
    ∧ Part000.safeWrite total (total + (j + 1) + k) (Core.WriteRes.wrote (j + 1) :: evs)
        = Part000.safeWrite (total + (j + 1)) (total + (j + 1) + k) evs
    ∧ Part000.safeWrite total total evs = some (total : Int)
    ∧ Core.safeWrite total (total + k + 1) (Core.WriteRes.wouldBlock :: evs)
        = some (-1) := by
  refine ⟨?_, ?_, ?_, ?_, ?_, ?_⟩
  · simp only [Part000.safeWrite]
    rw [if_neg (by omega)]
  · simp only [Part000.safeWrite]
    rw [if_neg (by omega)]
  · simp only [Part000.safeWrite]
    rw [if_neg (by omega)]
  · simp only [Part000.safeWrite]
    rw [if_neg (by omega)]
    have hcond : ¬ (j + 1 = 0 ∨ total + (j + 1) + k - total < j + 1) := by omega
    rw [if_neg hcond]
  · cases evs with
    | nil =>
      simp only [Part000.safeWrite]
      rw [if_pos (le_refl total)]
    | cons e rest =>
      simp only [Part000.safeWrite]
      rw [if_pos (le_refl total)]
  · simp only [Core.safeWrite]
    rw [if_neg (by omega)]

/-- Claim C4, counterexample to the claim as stated: a transient read
error is not retried: in both variants a `read` returning -1 with errno
EINTR or EAGAIN ends the current stream-processor run exactly like an
unrecoverable error (the errno test in part_000 lines 253-256 only
suppresses the failure log message). -/
theorem claim_C4_counterexample :
    (Part000.readStep (ReadOutcome.fail Errno.eintr)).endsRun = true
    ∧ (Part000.readStep (ReadOutcome.fail Errno.eagain)).endsRun = true
    ∧ (Core.readStep (ReadOutcome.fail Errno.eintr)).endsRun = true := by
  exact ⟨rfl, rfl, rfl⟩

/-- Claim C4, amended: in the stream processor read step, a read result
of zero (EOF) or of -1 with any errno - transient (EINTR, EAGAIN,
EWOULDBLOCK) or not - ends the current run; only a strictly positive byte
count continues it; the sole distinction made for transient errnos is
that the failure is not logged (part_000 variant); a failed `epoll_wait`
with EINTR, by contrast, is retried and does not end the run. -/
theorem claim_C4_read_step (n : Nat) (e : Errno) (r : ReadOutcome) :
    (Part000.readStep (ReadOutcome.bytes (n + 1))).endsRun = false
    ∧ (Part000.readStep (ReadOutcome.bytes 0)).endsRun = true
    ∧ (Part000.readStep (ReadOutcome.fail e)).endsRun = true
    ∧ (Part000.readStep r).endsRun = !r.isData
    ∧ ((Part000.readStep (ReadOutcome.fail e)).logsFailure
        = !(e == Errno.eintr || e == Errno.eagain || e == Errno.ewouldblock))
    ∧ Part000.epollErrEndsRun Errno.eintr = false
    ∧ (Core.readStep r).endsRun = !r.isData := by
  refine ⟨rfl, rfl, rfl, ?_, ?_, rfl, ?_⟩
  · rcases r with n | e
    · rcases n with _ | n <;> rfl
    · rfl
  · cases e <;> rfl
  · rcases r with n | e
    · rcases n with _ | n <;> rfl
    · rfl

/-- Claim C8: `start` builds the source command as the fixed binary path
followed by the verbose-time flag, then the pid filter argument exactly
when the pid filter is nonempty, then either the tag filter string when
it is nonempty or the level fallback otherwise; in particular with pid
1234, level D and an empty tag filter the command is the string
`/system/bin/logcat -v time --pid=1234 *:D`. -/
theorem claim_C8_command (cfg : LogConfig) :
    buildCmd cfg
      = "/system/bin/logcat -v time"
        ++ (if cfg.pid.isEmpty then "" else " --pid=" ++ cfg.pid)
        ++ (if cfg.tagFilter.isEmpty then " *:" ++ cfg.level else " " ++ cfg.tagFilter)
    ∧ buildCmd { pid := "1234", level := "D", tagFilter := "", customRegex := "" }
        = "/system/bin/logcat -v time --pid=1234 *:D" := by
  constructor
  · rw [buildCmd]
    by_cases h1 : cfg.pid.isEmpty <;> by_cases h2 : cfg.tagFilter.isEmpty <;>
      simp [h1, h2, String.append_empty, String.append_assoc] <;>
        rw [← String.append_assoc] <;> rfl
  · rfl

/-- Claim C9: `start` returns the failure value -1 whenever the engine is
already running (leaving the running flag set); when pipe creation fails
it resets the running flag and returns -1 with no resource created; when
worker-thread creation fails it closes both just-created pipe
descriptors, frees the thread-argument allocation, resets the running
flag and returns -1; and after such a reset a subsequent start in a
healthy environment succeeds, returning the non-negative read descriptor
rather than -1. -/
theorem claim_C9_start_cleanup (env : StartEnv) (rfd : Nat) :
    (start true env).ret = -1
    ∧ (start true env).running = true
    ∧ start false { pipeOk := false, pipeReadFd := rfd, threadOk := env.threadOk }
        = { ret := -1, running := false, fdsCreated := 0, fdsClosed := 0,
            argsAllocated := false, argsFreed := false, threadStarted := false }
    ∧ start false { pipeOk := true, pipeReadFd := rfd, threadOk := false }
        = { ret := -1, running := false, fdsCreated := 2, fdsClosed := 2,
            argsAllocated := true, argsFreed := true, threadStarted := false }
    ∧ (start false { pipeOk := true, pipeReadFd := rfd, threadOk := true }).ret
        = (rfd : Int)
    ∧ 0 ≤ (start false { pipeOk := true, pipeReadFd := rfd, threadOk := true }).ret := by
  refine ⟨rfl, rfl, rfl, rfl, rfl, ?_⟩
  show (0 : Int) ≤ (rfd : Int)
  exact Int.natCast_nonneg rfd

end LogcatEngine
